import Mathlib

/-!
Verification of the abstract sky-map contract in `gammapy/maps/base.py`.

The module defines `MapBase`, an abstract map class holding a geometry
reference (`_geom`), a data array (`_data`), a lazily created iteration
cursor (`_iter`), a `data` property with a shape-checking setter, an
iteration protocol (`__iter__` / `__next__` built on `np.ndenumerate`),
a classmethod factory `create`, and six abstract accessor methods
(`get/fill/set` by coordinates or by pixel indices) plus `sum_over_axes`,
all specified by their docstrings and the design document but given no
bodies in this file.

Modelling choices:
* a numpy `ndarray` is a shape (list of dimension sizes) plus a flat
  row-major list of integer values; well-formedness (`NdArray.wf`) is the
  numpy invariant `values.length = shape.prod`;
* the not-a-number sentinel used to flag out-of-domain reads is modelled
  as `Option.none`, keeping the value domain exact (`ℤ`);
* raising an exception is modelled by returning the error alongside the
  unchanged state (`setDataRun`) or by an explicit error constructor
  (`CreateOutcome`);
* the geometry is opaque to `MapBase` except for its shape and its
  coordinate-to-pixel primitive, which the design document requires the
  external `Geometry` collaborator to provide.
-/

namespace GammapyMaps

/-- A numpy `ndarray` of integer values (the contract uses no division, so an exact integer domain stands in for the float array): a shape and the flat row-major values. -/
structure NdArray where
  shape : List Nat
  values : List ℤ
deriving DecidableEq, Repr

/-- The numpy array invariant: the flat buffer has exactly `shape.prod`
elements. -/
def NdArray.wf (a : NdArray) : Prop := a.values.length = a.shape.prod

instance (a : NdArray) : Decidable a.wf := by
  unfold NdArray.wf; infer_instance

/-- The external `Geometry` collaborator, as seen by the core: a fixed
shape and a coordinate-to-pixel conversion primitive.  `none` from
`coordToPix` marks a coordinate outside the geometry's defined domain. -/
structure Geom where
  shape : List Nat
  coordToPix : List ℚ → Option (List Int)

/-- The state of a `MapBase` instance: `_geom`, `_data`, and the lazily
created iteration cursor `_iter`.  The cursor models the live
`np.ndenumerate` iterator as the list of its remaining
(multi-index, value) pairs; `none` models `self._iter is None`. -/
structure MapState where
  geom : Geom
  data : NdArray
  iter : Option (List (List Nat × ℤ))

/-- `MapBase.__init__(geom, data)`: stores both references and sets the
cursor to `None`.  No shape validation is performed. -/
def MapBase.init (geom : Geom) (data : NdArray) : MapState :=
  { geom := geom, data := data, iter := none }

/-- The `data` property setter: raises `Exception('Wrong shape.')` when the
new array's shape differs from the current data's shape, otherwise stores
the new array.  The returned `Option String` is the raised message, the
returned state is the object afterwards (unchanged when the setter
raises, since the raise happens before the assignment). -/
def setDataRun (m : MapState) (val : NdArray) : MapState × Option String :=
  if val.shape ≠ m.data.shape then (m, some "Wrong shape.")
  else ({ m with data := val }, none)

/-- Row-major multi-index of the element at flat offset `i` in an array of
the given shape (the index tuples produced by `np.ndenumerate`). -/
def unravel : List Nat → Nat → List Nat
  | [], _ => []
  | _ :: ds, i => (i / ds.prod) :: unravel ds (i % ds.prod)

/-- `np.ndenumerate(data)`: the (multi-index, value) pairs of all elements
in flat row-major storage order. -/
def ndenumerate (a : NdArray) : List (List Nat × ℤ) :=
  a.values.enum.map (fun p => (unravel a.shape p.1, p.2))

/-- `MapBase.__iter__`: returns `self`, touching no state. -/
def iterMap (m : MapState) : MapState := m

/-- `MapBase.__next__`: if the cursor is `None` a fresh `np.ndenumerate`
iterator over the current data is created; then the iterator's next pair
is returned, or on exhaustion (`StopIteration`, modelled as `none`) the
cursor is reset to `None` and the exception re-raised. -/
def nextMap (m : MapState) : Option (List Nat × ℤ) × MapState :=
  let it := match m.iter with
    | none => ndenumerate m.data
    | some it => it
  match it with
  | [] => (none, { m with iter := none })
  | x :: xs => (some x, { m with iter := some xs })

/-- Repeatedly call `__next__` until it raises `StopIteration` (or fuel
runs out), collecting the yielded pairs and the final state. -/
def traverse : Nat → MapState → List (List Nat × ℤ) × MapState
  | 0, m => ([], m)
  | fuel + 1, m =>
    match nextMap m with
    | (none, m') => ([], m')
    | (some x, m') =>
      let r := traverse fuel m'
      (x :: r.1, r.2)

/-! ### The `create` factory

`MapBase.create(**kwargs)` runs, in order:
```
from .hpxmap import HpxMap          # line 63: binds the name HpxMap
from .wcsmap import HpxMap          # line 64: REBINDS HpxMap; WcsMap is never bound
map_type = kwargs.setdefault('map_type', 'wcs')
if 'wcs' in map_type.lower():       return WcsMap.create(**kwargs)
elif 'hpx' in map_type.lower():     return HpxMap.create(**kwargs)
else: raise ValueError('Unrecognized map type: {}'.format(map_type))
```
The two import statements bind only the name `HpxMap` (the second one,
from the `wcsmap` module, shadows the first); the name `WcsMap` is never
bound, so evaluating `WcsMap.create` raises `NameError: WcsMap`.  The
model assumes the imports themselves succeed, the weakest assumption
under which `create` runs at all. -/

/-- The keyword arguments passed to `create`: the value of the
`map_type` key if present, and the remaining backend-specific keyword
arguments, opaque to the factory. -/
structure Kwargs (α : Type) where
  map_type : Option String
  rest : α
deriving DecidableEq, Repr

/-- What a call to `MapBase.create` does: dispatch to `WcsMap.create` or
to (the object currently named) `HpxMap`'s `create` with the final
keyword arguments, or raise `NameError` / `ValueError`. -/
inductive CreateOutcome (α : Type) where
  | wcsCreate (kw : Kwargs α)
  | hpxCreate (kw : Kwargs α)
  | nameError (name : String)
  | valueError (msg : String)
deriving DecidableEq, Repr

/-- The module-level names bound by the two import lines of `create`:
`from .hpxmap import HpxMap` then `from .wcsmap import HpxMap` bind only
`HpxMap`; `WcsMap` is absent. -/
def boundNames : List String := ["HpxMap"]

/-- The module whose attribute the name `HpxMap` finally denotes: line 64
(`from .wcsmap import HpxMap`) shadows line 63's binding from `hpxmap`. -/
def hpxMapSourceModule : String := "wcsmap"

/-- Does the second list start with the first? -/
def startsWithL : List Char → List Char → Bool
  | [], _ => true
  | _ :: _, [] => false
  | a :: as, b :: bs => a == b && startsWithL as bs

/-- Does the second list contain the first as a contiguous run? -/
def containsL (sub : List Char) : List Char → Bool
  | [] => startsWithL sub []
  | b :: bs => startsWithL sub (b :: bs) || containsL sub bs

/-- ASCII lower-casing of one character (the backend tags are ASCII). -/
def lowerChar (c : Char) : Char :=
  if 65 ≤ c.toNat ∧ c.toNat ≤ 90 then Char.ofNat (c.toNat + 32) else c

/-- Python `s.lower()` for ASCII strings, as a character list. -/
def pyLower (s : String) : List Char := s.toList.map lowerChar

/-- Python `sub in s` on strings: substring containment. -/
def pyIn (sub : String) (l : List Char) : Bool := containsL sub.toList l

/-- `kwargs.setdefault('map_type', 'wcs')`: returns the existing value if
the key is present, else inserts `'wcs'` and returns it.  The updated
keyword arguments are those forwarded to the chosen backend. -/
def setdefaultMapType {α : Type} (kw : Kwargs α) : String × Kwargs α :=
  match kw.map_type with
  | some v => (v, kw)
  | none => ("wcs", { kw with map_type := some "wcs" })

/-- `MapBase.create(**kwargs)`: default the map type to `'wcs'`, then
dispatch on case-insensitive substring match; an unrecognized type raises
`ValueError` naming the value.  Referencing an unbound module-level name
in a taken branch raises `NameError` for that name. -/
def create {α : Type} (kw : Kwargs α) : CreateOutcome α :=
  let r := setdefaultMapType kw
  if pyIn "wcs" (pyLower r.1) then
    if boundNames.contains "WcsMap" then .wcsCreate r.2 else .nameError "WcsMap"
  else if pyIn "hpx" (pyLower r.1) then
    if boundNames.contains "HpxMap" then .hpxCreate r.2 else .nameError "HpxMap"
  else .valueError ("Unrecognized map type: " ++ r.1)

/-! ### The six accessor operations and `sum_over_axes`

These are abstract in `base.py` (declared with docstrings, no bodies);
their behavior is fixed by the docstrings and the design document, and
every concrete backend must implement exactly that contract.  They are
modelled from the spec below; each docstring says so explicitly. -/

/-- Is `ix` a valid multi-index for an array of shape `shape`: one (integer)
entry per dimension, each within `[0, size)`? -/
def inDomain : List Nat → List Int → Bool
  | [], [] => true
  | d :: ds, i :: is => decide (0 ≤ i) && decide (i < (d : Int)) && inDomain ds is
  | _, _ => false

/-- The Nat multi-index of an in-domain Int multi-index. -/
def toIdx (ix : List Int) : List Nat := ix.map Int.toNat

/-- Row-major flat offset of a multi-index in an array of the given shape. -/
def ravel : List Nat → List Nat → Nat
  | [], _ => 0
  | _ :: _, [] => 0
  | _ :: ds, i :: is => i * ds.prod + ravel ds is

/-- Replace the element at position `k` by `f` of itself; out-of-range `k`
leaves the list unchanged. -/
def listModify (f : ℤ → ℤ) : Nat → List ℤ → List ℤ
  | _, [] => []
  | 0, x :: xs => f x :: xs
  | k + 1, x :: xs => x :: listModify f k xs

/-- Modelled from the spec: the value stored at one pixel multi-index;
`none` (the not-a-number sentinel) for an out-of-domain index. -/
def NdArray.getPix (a : NdArray) (ix : List Int) : Option ℤ :=
  if inDomain a.shape ix then a.values.get? (ravel a.shape (toIdx ix)) else none

/-- The rational stored at an (in-domain) pixel, defaulting to 0. -/
def pixVal (a : NdArray) (ix : List Int) : ℤ := (a.getPix ix).getD 0

/-- Modelled from the spec: accumulate weight `w` into the pixel at `ix`;
an out-of-domain address is silently dropped. -/
def fillOne (a : NdArray) (ix : List Int) (w : ℤ) : NdArray :=
  if inDomain a.shape ix then
    { a with values := listModify (· + w) (ravel a.shape (toIdx ix)) a.values }
  else a

/-- Modelled from the spec: overwrite the pixel at `ix` with value `v`;
an out-of-domain address is silently ignored. -/
def setOne (a : NdArray) (ix : List Int) (v : ℤ) : NdArray :=
  if inDomain a.shape ix then
    { a with values := listModify (fun _ => v) (ravel a.shape (toIdx ix)) a.values }
  else a

/-- Sequentially accumulate a list of (resolved address, weight) entries;
`none` addresses (coordinates outside the geometry's domain) are dropped. -/
def fillList (a : NdArray) (l : List (Option (List Int) × ℤ)) : NdArray :=
  l.foldl (fun b pw =>
    match pw.1 with
    | none => b
    | some ix => fillOne b ix pw.2) a

/-- Sequentially overwrite from a list of (resolved address, value) entries;
`none` addresses are ignored. -/
def setList (a : NdArray) (l : List (Option (List Int) × ℤ)) : NdArray :=
  l.foldl (fun b pv =>
    match pv.1 with
    | none => b
    | some ix => setOne b ix pv.2) a

/-- Modelled from the spec: `fill_by_pix(pix, weights)` — add the weights
into the addressed pixels (addresses given as one multi-index per element,
the transpose of the source's tuple of parallel index arrays); omitted
weights mean unit weight per element; out-of-domain addresses are
silently dropped; duplicate addresses all accumulate. -/
def fill_by_pix (m : MapState) (pix : List (List Int)) (weights : Option (List ℤ)) :
    MapState :=
  let ws := weights.getD (List.replicate pix.length 1)
  { m with data := fillList m.data ((pix.zip ws).map (fun pw => (some pw.1, pw.2))) }

/-- Modelled from the spec: `set_by_pix(pix, vals)` — overwrite the
addressed pixels with the values, last write winning on duplicate
addresses; out-of-domain addresses are silently ignored. -/
def set_by_pix (m : MapState) (pix : List (List Int)) (vals : List ℤ) : MapState :=
  { m with data := setList m.data ((pix.zip vals).map (fun pv => (some pv.1, pv.2))) }

/-- Modelled from the spec: `fill_by_coords(coords, weights)` — resolve
each coordinate tuple through the geometry's coordinate-to-pixel
primitive and accumulate; coordinates outside the geometry's domain
resolve to `none` and are silently dropped. -/
def fill_by_coords (m : MapState) (coords : List (List ℚ)) (weights : Option (List ℤ)) :
    MapState :=
  let ws := weights.getD (List.replicate coords.length 1)
  let l := (coords.zip ws).map (fun cw => (m.geom.coordToPix cw.1, cw.2))
  { m with data := fillList m.data l }

/-- Modelled from the spec: `set_by_coords(coords, vals)` — resolve each
coordinate tuple and overwrite, last write winning; out-of-domain
coordinates are silently ignored. -/
def set_by_coords (m : MapState) (coords : List (List ℚ)) (vals : List ℤ) : MapState :=
  let l := (coords.zip vals).map (fun cv => (m.geom.coordToPix cv.1, cv.2))
  { m with data := setList m.data l }

/-- Modelled from the spec: `get_by_pix(pix)` — one output per address, the
stored value for an in-domain index and the not-a-number sentinel
(`none`) for an out-of-domain index; never an error. -/
def get_by_pix (m : MapState) (pix : List (List Int)) : List (Option ℤ) :=
  pix.map (fun ix => m.data.getPix ix)

/-- Modelled from the spec: `get_by_coords(coords)` — resolve each
coordinate tuple through the geometry; a coordinate outside the
geometry's domain yields the sentinel (`none`); never an error. -/
def get_by_coords (m : MapState) (coords : List (List ℚ)) : List (Option ℤ) :=
  coords.map (fun c =>
    match m.geom.coordToPix c with
    | none => none
    | some ix => m.data.getPix ix)

/-- Sum of each contiguous block of `b` elements, for `sp` blocks. -/
def blockSums (sp b : Nat) (l : List ℤ) : List ℤ :=
  (List.range sp).map (fun s => ((l.drop (s * b)).take b).sum)

/-- Modelled from the spec: collapse all non-spatial axes (every dimension
after the first two, spatial-first layout as in the spec's 4×4×2
end-to-end scenario) by summation. -/
def sumOverAxesData (a : NdArray) : NdArray :=
  { shape := a.shape.take 2,
    values := blockSums (a.shape.take 2).prod (a.shape.drop 2).prod a.values }

/-- The spatial part of a geometry: same geometry, shape restricted to the
two spatial dimensions. -/
def spatialGeom (g : Geom) : Geom := { g with shape := g.shape.take 2 }

/-- Modelled from the spec: `sum_over_axes()` — a new 2-spatial-dimensional
map over the same spatial geometry whose data collapses all non-spatial
axes by summation. -/
def sum_over_axes (m : MapState) : MapState :=
  { geom := spatialGeom m.geom, data := sumOverAxesData m.data, iter := none }

/-- One public mutating-or-not operation on a map instance, used to state
frame conditions over arbitrary operation sequences. -/
inductive MapOp where
  | setData (val : NdArray)
  | iterOp
  | nextOp
  | fillByPix (pix : List (List Int)) (w : Option (List ℤ))
  | setByPix (pix : List (List Int)) (v : List ℤ)
  | fillByCoords (c : List (List ℚ)) (w : Option (List ℤ))
  | setByCoords (c : List (List ℚ)) (v : List ℤ)

/-- Apply one operation to the map state (for `setData`, the state after
the call whether it raised or not; for `nextOp`, the state after the
`__next__` call). -/
def applyOp (m : MapState) : MapOp → MapState
  | .setData val => (setDataRun m val).1
  | .iterOp => iterMap m
  | .nextOp => (nextMap m).2
  | .fillByPix pix w => fill_by_pix m pix w
  | .setByPix pix v => set_by_pix m pix v
  | .fillByCoords c w => fill_by_coords m c w
  | .setByCoords c v => set_by_coords m c v

/-- The map state after constructing with `geom`/`data` and applying a
sequence of public operations. -/
def runOps (geom : Geom) (data : NdArray) (ops : List MapOp) : MapState :=
  ops.foldl applyOp (MapBase.init geom data)

/-! ### Theorems about the `create` factory -/

/-- Claim C6.  The claim says a `map_type` containing `"wcs"` dispatches to
the WCS backend's creation routine and one containing `"hpx"` to the
HEALPix backend's.  In the code, line 64 reads `from .wcsmap import
HpxMap`, so the name `WcsMap` is never bound: calling `create` with
`map_type='wcs'` reaches `WcsMap.create(**kwargs)` and raises
`NameError: WcsMap` instead of dispatching; moreover the name `HpxMap`
used by the `'hpx'` branch denotes the `wcsmap` module's attribute, not
the HEALPix backend imported on line 63. -/
theorem create_wcs_raises_nameError :
    create (α := Unit) ⟨some "wcs", ()⟩ = CreateOutcome.nameError "WcsMap"
      ∧ hpxMapSourceModule ≠ "hpxmap" := by
  exact ⟨rfl, by decide⟩

/-- Claim C7: for every `map_type` containing neither `"wcs"` nor `"hpx"`
as a case-insensitive substring, `create` fails with a `ValueError` whose
message names the offending value, and no backend creation routine is
reached. -/
theorem create_unrecognized_valueError {α : Type} (kw : Kwargs α) (mt : String)
    (hmt : kw.map_type = some mt)
    (hw : pyIn "wcs" (pyLower mt) = false)
    (hh : pyIn "hpx" (pyLower mt) = false) :
    create kw = CreateOutcome.valueError ("Unrecognized map type: " ++ mt) := by
  unfold create setdefaultMapType
  rw [hmt]
  simp only [hw, hh, Bool.false_eq_true, if_false]

/-- Witness for C7 at the concrete map type `"foo"`. -/
theorem create_unrecognized_valueError_witness :
    pyIn "wcs" (pyLower "foo") = false ∧ pyIn "hpx" (pyLower "foo") = false ∧
      create (α := Unit) ⟨some "foo", ()⟩ =
        CreateOutcome.valueError ("Unrecognized map type: " ++ "foo") :=
  ⟨by decide, by decide,
    create_unrecognized_valueError ⟨some "foo", ()⟩ "foo" rfl (by decide) (by decide)⟩

/-- Claim C9.  The claim says that without a `map_type` keyword `create`
defaults it to `'wcs'`, writes the default back into the forwarded
keyword arguments, and dispatches to the WCS backend rather than failing.
The defaulting and write-back do happen (`kwargs.setdefault`), but the
dispatch then fails with `NameError: WcsMap` because line 64 imports
`HpxMap`, not `WcsMap`, from `.wcsmap`. -/
theorem create_default_is_wcs_but_fails :
    setdefaultMapType (α := Unit) ⟨none, ()⟩ = ("wcs", ⟨some "wcs", ()⟩)
      ∧ create (α := Unit) ⟨none, ()⟩ = CreateOutcome.nameError "WcsMap" := by
  exact ⟨rfl, rfl⟩

/-! ### Frame lemmas: what the operations leave untouched -/

theorem listModify_length (f : ℤ → ℤ) : ∀ (k : Nat) (l : List ℤ),
    (listModify f k l).length = l.length := by
  intro k l
  induction l generalizing k with
  | nil => cases k <;> rfl
  | cons x xs ih => cases k with
    | zero => rfl
    | succ k => simpa [listModify] using ih k

theorem fillOne_shape (a : NdArray) (ix : List Int) (w : ℤ) :
    (fillOne a ix w).shape = a.shape := by
  unfold fillOne; split <;> rfl

theorem fillOne_vlen (a : NdArray) (ix : List Int) (w : ℤ) :
    (fillOne a ix w).values.length = a.values.length := by
  unfold fillOne; split
  · exact listModify_length _ _ _
  · rfl

theorem setOne_shape (a : NdArray) (ix : List Int) (v : ℤ) :
    (setOne a ix v).shape = a.shape := by
  unfold setOne; split <;> rfl

theorem setOne_vlen (a : NdArray) (ix : List Int) (v : ℤ) :
    (setOne a ix v).values.length = a.values.length := by
  unfold setOne; split
  · exact listModify_length _ _ _
  · rfl

theorem fillList_shape : ∀ (l : List (Option (List Int) × ℤ)) (a : NdArray),
    (fillList a l).shape = a.shape := by
  intro l
  induction l with
  | nil => intro a; rfl
  | cons p t ih =>
    intro a
    show (fillList _ t).shape = a.shape
    cases h : p.1 with
    | none => simpa [fillList, h] using ih _
    | some ix =>
      have := ih (fillOne a ix p.2)
      simpa [fillList, h, fillOne_shape] using this

theorem fillList_vlen : ∀ (l : List (Option (List Int) × ℤ)) (a : NdArray),
    (fillList a l).values.length = a.values.length := by
  intro l
  induction l with
  | nil => intro a; rfl
  | cons p t ih =>
    intro a
    cases h : p.1 with
    | none => simpa [fillList, h] using ih a
    | some ix =>
      have := ih (fillOne a ix p.2)
      simpa [fillList, h, fillOne_vlen] using this

theorem setList_shape : ∀ (l : List (Option (List Int) × ℤ)) (a : NdArray),
    (setList a l).shape = a.shape := by
  intro l
  induction l with
  | nil => intro a; rfl
  | cons p t ih =>
    intro a
    cases h : p.1 with
    | none => simpa [setList, h] using ih a
    | some ix =>
      have := ih (setOne a ix p.2)
      simpa [setList, h, setOne_shape] using this

theorem setList_vlen : ∀ (l : List (Option (List Int) × ℤ)) (a : NdArray),
    (setList a l).values.length = a.values.length := by
  intro l
  induction l with
  | nil => intro a; rfl
  | cons p t ih =>
    intro a
    cases h : p.1 with
    | none => simpa [setList, h] using ih a
    | some ix =>
      have := ih (setOne a ix p.2)
      simpa [setList, h, setOne_vlen] using this

theorem fillList_wf (a : NdArray) (l : List (Option (List Int) × ℤ)) (h : a.wf) :
    (fillList a l).wf := by
  unfold NdArray.wf at *
  rw [fillList_vlen, fillList_shape, h]

theorem setList_wf (a : NdArray) (l : List (Option (List Int) × ℤ)) (h : a.wf) :
    (setList a l).wf := by
  unfold NdArray.wf at *
  rw [setList_vlen, setList_shape, h]

/-- No public operation changes the geometry reference. -/
theorem applyOp_geom (m : MapState) (op : MapOp) : (applyOp m op).geom = m.geom := by
  cases op with
  | setData val =>
    show (setDataRun m val).1.geom = m.geom
    unfold setDataRun; split <;> rfl
  | iterOp => rfl
  | nextOp =>
    show (nextMap m).2.geom = m.geom
    unfold nextMap
    cases m.iter <;> dsimp only <;> split <;> rfl
  | fillByPix pix w => rfl
  | setByPix pix v => rfl
  | fillByCoords c w => rfl
  | setByCoords c v => rfl

/-- No public operation changes the shape of the data array: the setter
only accepts a replacement of the current shape, fills and sets rewrite
values in place, and iteration touches only the cursor. -/
theorem applyOp_shape (m : MapState) (op : MapOp) :
    (applyOp m op).data.shape = m.data.shape := by
  cases op with
  | setData val =>
    show (setDataRun m val).1.data.shape = m.data.shape
    unfold setDataRun
    split
    · rfl
    · next hcond => simpa using hcond
  | iterOp => rfl
  | nextOp =>
    show (nextMap m).2.data.shape = m.data.shape
    unfold nextMap
    cases m.iter <;> dsimp only <;> split <;> rfl
  | fillByPix pix w => exact fillList_shape _ _
  | setByPix pix v => exact setList_shape _ _
  | fillByCoords c w => exact fillList_shape _ _
  | setByCoords c v => exact setList_shape _ _

theorem runOps_geom (g : Geom) (d : NdArray) : ∀ (ops : List MapOp),
    (runOps g d ops).geom = g := by
  have key : ∀ (ops : List MapOp) (m : MapState),
      (ops.foldl applyOp m).geom = m.geom := by
    intro ops
    induction ops with
    | nil => intro m; rfl
    | cons op t ih =>
      intro m
      calc ((op :: t).foldl applyOp m).geom
          = (t.foldl applyOp (applyOp m op)).geom := rfl
        _ = (applyOp m op).geom := ih _
        _ = m.geom := applyOp_geom m op
  intro ops
  exact key ops _

theorem runOps_shape (g : Geom) (d : NdArray) : ∀ (ops : List MapOp),
    (runOps g d ops).data.shape = d.shape := by
  have key : ∀ (ops : List MapOp) (m : MapState),
      (ops.foldl applyOp m).data.shape = m.data.shape := by
    intro ops
    induction ops with
    | nil => intro m; rfl
    | cons op t ih =>
      intro m
      calc ((op :: t).foldl applyOp m).data.shape
          = (t.foldl applyOp (applyOp m op)).data.shape := rfl
        _ = (applyOp m op).data.shape := ih _
        _ = m.data.shape := applyOp_shape m op
  intro ops
  exact key ops _

/-! ### Claims C1 and C8 -/

/-- Counterexample to claim C1 as stated: `MapBase.__init__` performs no
shape validation, so a map constructed with a data array whose shape
differs from the geometry's shape succeeds and immediately violates
`data.shape = geometry.shape`. -/
theorem init_shape_mismatch_counterexample :
    (MapBase.init { shape := [2, 2], coordToPix := fun _ => none }
        { shape := [3], values := [0, 0, 0] }).data.shape
      ≠ ({ shape := [2, 2], coordToPix := fun _ => none } : Geom).shape := by
  decide

/-- Claim C1, amended: if a map is constructed with `data.shape` equal to
the geometry's shape, then `data.shape` equals `geometry.shape` after
every sequence of public operations (in particular after every successful
data reassignment); a reassignment whose shape differs from the current
data's shape raises `Exception('Wrong shape.')` and leaves the map (in
particular its data) unchanged, and a matching reassignment succeeds.
Construction itself performs no shape check, so the invariant is
conditional on being established at construction. -/
theorem shape_invariant (g : Geom) (d : NdArray) (h : d.shape = g.shape)
    (ops : List MapOp) (vGood vBad : NdArray)
    (hg : vGood.shape = (runOps g d ops).data.shape)
    (hb : vBad.shape ≠ (runOps g d ops).data.shape) :
    (runOps g d ops).data.shape = g.shape
      ∧ setDataRun (runOps g d ops) vGood
          = ({ runOps g d ops with data := vGood }, none)
      ∧ setDataRun (runOps g d ops) vBad
          = (runOps g d ops, some "Wrong shape.") := by
  refine ⟨?_, ?_, ?_⟩
  · rw [runOps_shape]; exact h
  · unfold setDataRun
    rw [if_neg]
    intro hcon
    exact hcon hg
  · unfold setDataRun
    rw [if_pos hb]

/-- Witness for the amended claim C1: a concrete 2×1 map, one successful
fill operation, a matching replacement and a mismatched one. -/
theorem shape_invariant_witness :
    ({ shape := [2, 1], values := [0, 0] } : NdArray).shape
        = ({ shape := [2, 1], coordToPix := fun _ => none } : Geom).shape
      ∧ ({ shape := [2, 1], values := [3, 4] } : NdArray).shape
          = (runOps { shape := [2, 1], coordToPix := fun _ => none }
              { shape := [2, 1], values := [0, 0] }
              [MapOp.fillByPix [[0, 0]] none]).data.shape
      ∧ ({ shape := [3], values := [1, 2, 3] } : NdArray).shape
          ≠ (runOps { shape := [2, 1], coordToPix := fun _ => none }
              { shape := [2, 1], values := [0, 0] }
              [MapOp.fillByPix [[0, 0]] none]).data.shape
      ∧ ((runOps { shape := [2, 1], coordToPix := fun _ => none }
              { shape := [2, 1], values := [0, 0] }
              [MapOp.fillByPix [[0, 0]] none]).data.shape
            = ({ shape := [2, 1], coordToPix := fun _ => none } : Geom).shape
          ∧ setDataRun (runOps { shape := [2, 1], coordToPix := fun _ => none }
                { shape := [2, 1], values := [0, 0] }
                [MapOp.fillByPix [[0, 0]] none])
                { shape := [2, 1], values := [3, 4] }
              = ({ runOps { shape := [2, 1], coordToPix := fun _ => none }
                    { shape := [2, 1], values := [0, 0] }
                    [MapOp.fillByPix [[0, 0]] none] with
                    data := { shape := [2, 1], values := [3, 4] } }, none)
          ∧ setDataRun (runOps { shape := [2, 1], coordToPix := fun _ => none }
                { shape := [2, 1], values := [0, 0] }
                [MapOp.fillByPix [[0, 0]] none])
                { shape := [3], values := [1, 2, 3] }
              = (runOps { shape := [2, 1], coordToPix := fun _ => none }
                  { shape := [2, 1], values := [0, 0] }
                  [MapOp.fillByPix [[0, 0]] none], some "Wrong shape.")) := by
  refine ⟨rfl, ?_, ?_, ?_⟩
  · rw [runOps_shape]
  · rw [runOps_shape]; decide
  · exact shape_invariant _ _ rfl _ _ _ (by rw [runOps_shape]) (by rw [runOps_shape]; decide)

/-- Claim C8: the geometry reference is immutable for the life of the map:
after construction, no sequence of public operations (data reassignments,
successful or failed, fills, sets, iteration) changes `geom`; the `geom`
property always returns the geometry supplied at construction. -/
theorem geom_immutable (g : Geom) (d : NdArray) (ops : List MapOp) :
    (runOps g d ops).geom = g := runOps_geom g d ops

/-! ### Iteration protocol -/

theorem mapstate_iter_none (m : MapState) (hit : m.iter = none) :
    ({ m with iter := none } : MapState) = m := by
  cases m
  simp_all

theorem traverse_from_cursor :
    ∀ (it : List (List Nat × ℤ)) (fuel : Nat) (m : MapState),
      m.iter = some it → it.length + 1 ≤ fuel →
      traverse fuel m = (it, { m with iter := none }) := by
  intro it
  induction it with
  | nil =>
    intro fuel m hit hf
    obtain ⟨g, d, cur⟩ := m
    simp only at hit
    subst hit
    match fuel, hf with
    | f + 1, _ =>
      show (match nextMap ⟨g, d, some []⟩ with
        | (none, m') => ([], m')
        | (some x, m') =>
          let r := traverse f m'
          (x :: r.1, r.2)) = _
      rfl
  | cons x xs ih =>
    intro fuel m hit hf
    obtain ⟨g, d, cur⟩ := m
    simp only at hit
    subst hit
    match fuel, hf with
    | f + 1, hf =>
      show (match nextMap ⟨g, d, some (x :: xs)⟩ with
        | (none, m') => ([], m')
        | (some y, m') =>
          let r := traverse f m'
          (y :: r.1, r.2)) = _
      have hstep : nextMap ⟨g, d, some (x :: xs)⟩ = (some x, ⟨g, d, some xs⟩) := rfl
      rw [hstep]
      have hf' : xs.length + 1 ≤ f := by
        simpa [Nat.succ_le_succ_iff] using hf
      have := ih f ⟨g, d, some xs⟩ rfl hf'
      simp only [this]

theorem nextMap_fresh (m : MapState) (hit : m.iter = none) :
    nextMap m = nextMap { m with iter := some (ndenumerate m.data) } := by
  unfold nextMap
  rw [hit]

theorem traverse_fresh (m : MapState) (hit : m.iter = none) (f : Nat) :
    traverse (f + 1) m = traverse (f + 1) { m with iter := some (ndenumerate m.data) } := by
  show (match nextMap m with
    | (none, m') => ([], m')
    | (some x, m') =>
      let r := traverse f m'
      (x :: r.1, r.2)) = (match nextMap { m with iter := some (ndenumerate m.data) } with
    | (none, m') => ([], m')
    | (some x, m') =>
      let r := traverse f m'
      (x :: r.1, r.2))
  rw [nextMap_fresh m hit]

/-- Claim C4: starting with a `None` cursor, a full traversal yields the
`np.ndenumerate` sequence of the data — one (row-major multi-index,
value) pair per element, in flat storage order — and ends with the cursor
reset to `None`, i.e. in the starting state; a second full traversal
started there yields the same sequence again.  The values visited, in
order, are exactly the flat data buffer. -/
theorem iteration_total_restartable (m : MapState) (hit : m.iter = none)
    (fuel : Nat) (hf : (ndenumerate m.data).length + 1 ≤ fuel) :
    traverse fuel m = (ndenumerate m.data, m)
      ∧ traverse fuel ((traverse fuel m).2) = (ndenumerate m.data, m)
      ∧ (ndenumerate m.data).map Prod.snd = m.data.values := by
  have key : traverse fuel m = (ndenumerate m.data, m) := by
    obtain ⟨g, d, cur⟩ := m
    simp only at hit
    subst hit
    match fuel, hf with
    | f + 1, hf =>
      rw [traverse_fresh ⟨g, d, none⟩ rfl f]
      exact traverse_from_cursor (ndenumerate d) (f + 1) ⟨g, d, some (ndenumerate d)⟩
        rfl hf
  refine ⟨key, ?_, ?_⟩
  · rw [key, key]
  · unfold ndenumerate
    rw [List.map_map]
    exact List.enum_map_snd m.data.values

/-- A concrete 2×2 geometry whose coordinate-to-pixel primitive rejects
everything (the simplest admissible external collaborator). -/
def sampleGeom : Geom := { shape := [2, 2], coordToPix := fun _ => none }

/-- A concrete well-formed 2×2 data array. -/
def sampleArr : NdArray := { shape := [2, 2], values := [1, 2, 3, 4] }

/-- The concrete map built from `sampleGeom` and `sampleArr`. -/
def sampleMap : MapState := MapBase.init sampleGeom sampleArr

/-- Witness for C4: a 2×2 map with values 1..4 and a fresh cursor. -/
theorem iteration_total_restartable_witness :
    sampleMap.iter = none
      ∧ (ndenumerate sampleMap.data).length + 1 ≤ 5
      ∧ (traverse 5 sampleMap = (ndenumerate sampleMap.data, sampleMap)
        ∧ traverse 5 ((traverse 5 sampleMap).2) = (ndenumerate sampleMap.data, sampleMap)
        ∧ (ndenumerate sampleMap.data).map Prod.snd = sampleMap.data.values) :=
  ⟨rfl, by decide, iteration_total_restartable sampleMap rfl 5 (by decide)⟩

/-- Claim C10: `__iter__` returns the map object itself and changes no
state — in particular it does not reset the cursor — so after a partially
completed traversal, calling `iter()` and then `next()` resumes from the
saved position (the head of the remaining enumerator), not from the first
element. -/
theorem iter_returns_self_resumes (m : MapState) (x : List Nat × ℤ)
    (xs : List (List Nat × ℤ)) (hit : m.iter = some (x :: xs)) :
    iterMap m = m
      ∧ nextMap (iterMap m) = (some x, { m with iter := some xs }) := by
  constructor
  · rfl
  · show nextMap m = _
    unfold nextMap
    rw [hit]

/-- A concrete map mid-traversal: the cursor has one remaining element. -/
def samplePartialMap : MapState :=
  { geom := { shape := [2], coordToPix := fun _ => none },
    data := { shape := [2], values := [4, 5] },
    iter := some [([1], 5)] }

/-- Witness for C10: a map whose cursor has already consumed the first of
two elements; `iter()` then `next()` yields the second element. -/
theorem iter_returns_self_resumes_witness :
    samplePartialMap.iter = some [([1], 5)]
      ∧ (iterMap samplePartialMap = samplePartialMap
        ∧ nextMap (iterMap samplePartialMap)
          = (some ([1], 5), { samplePartialMap with iter := some [] })) :=
  ⟨rfl, iter_returns_self_resumes samplePartialMap ([1], 5) [] rfl⟩

/-! ### Pixel addressing arithmetic -/

theorem ravel_toIdx_lt : ∀ (ds : List Nat) (is : List Int),
    inDomain ds is = true → ravel ds (toIdx is) < ds.prod := by
  intro ds
  induction ds with
  | nil =>
    intro is h
    cases is with
    | nil => simp [ravel, toIdx]
    | cons i is => simp [inDomain] at h
  | cons d ds ih =>
    intro is h
    cases is with
    | nil => simp [inDomain] at h
    | cons i is =>
      simp only [inDomain, Bool.and_eq_true, decide_eq_true_eq] at h
      obtain ⟨⟨h0, hd⟩, hrest⟩ := h
      have hr : ravel ds (toIdx is) < ds.prod := ih is hrest
      have hi : i.toNat < d := by
        rw [← Int.toNat_lt h0] at hd
        exact hd
      show i.toNat * ds.prod + ravel ds (toIdx is) < (d :: ds).prod
      have h1 : i.toNat * ds.prod + ravel ds (toIdx is)
          < (i.toNat + 1) * ds.prod := by
        rw [Nat.succ_mul]
        exact Nat.add_lt_add_left hr _
      have h2 : (i.toNat + 1) * ds.prod ≤ d * ds.prod :=
        Nat.mul_le_mul_right _ (Nat.succ_le_of_lt hi)
      calc i.toNat * ds.prod + ravel ds (toIdx is)
          < (i.toNat + 1) * ds.prod := h1
        _ ≤ d * ds.prod := h2
        _ = (d :: ds).prod := (List.prod_cons).symm

theorem ravel_toIdx_inj : ∀ (ds : List Nat) (is1 is2 : List Int),
    inDomain ds is1 = true → inDomain ds is2 = true →
    ravel ds (toIdx is1) = ravel ds (toIdx is2) → is1 = is2 := by
  intro ds
  induction ds with
  | nil =>
    intro is1 is2 h1 h2 _
    cases is1 with
    | nil => cases is2 with
      | nil => rfl
      | cons j js => simp [inDomain] at h2
    | cons i is => simp [inDomain] at h1
  | cons d ds ih =>
    intro is1 is2 h1 h2 heq
    cases is1 with
    | nil => simp [inDomain] at h1
    | cons i is =>
      cases is2 with
      | nil => simp [inDomain] at h2
      | cons j js =>
        simp only [inDomain, Bool.and_eq_true, decide_eq_true_eq] at h1 h2
        obtain ⟨⟨hi0, hid⟩, hir⟩ := h1
        obtain ⟨⟨hj0, hjd⟩, hjr⟩ := h2
        have hlt1 : ravel ds (toIdx is) < ds.prod := ravel_toIdx_lt ds is hir
        have hlt2 : ravel ds (toIdx js) < ds.prod := ravel_toIdx_lt ds js hjr
        have heq' : i.toNat * ds.prod + ravel ds (toIdx is)
            = j.toNat * ds.prod + ravel ds (toIdx js) := heq
        have hP : 0 < ds.prod := Nat.pos_of_ne_zero (by
          intro h0
          rw [h0] at hlt1
          exact Nat.not_lt_zero _ hlt1)
        have hhead : i.toNat = j.toNat := by
          have d1 : (i.toNat * ds.prod + ravel ds (toIdx is)) / ds.prod = i.toNat := by
            rw [Nat.mul_comm i.toNat ds.prod]
            rw [Nat.mul_add_div hP]
            rw [Nat.div_eq_of_lt hlt1]
            omega
          have d2 : (j.toNat * ds.prod + ravel ds (toIdx js)) / ds.prod = j.toNat := by
            rw [Nat.mul_comm j.toNat ds.prod]
            rw [Nat.mul_add_div hP]
            rw [Nat.div_eq_of_lt hlt2]
            omega

          rw [← d1, ← d2, heq']
        have hih : i = j := by
          rw [← Int.toNat_of_nonneg hi0, ← Int.toNat_of_nonneg hj0, hhead]
        have htail : ravel ds (toIdx is) = ravel ds (toIdx js) := by
          rw [hhead] at heq'
          omega
        rw [hih, ih is js hir hjr htail]

theorem listModify_get_eq (f : ℤ → ℤ) : ∀ (l : List ℤ) (k : Nat),
    (listModify f k l).get? k = (l.get? k).map f := by
  intro l
  induction l with
  | nil => intro k; cases k <;> rfl
  | cons x xs ih =>
    intro k
    cases k with
    | zero => rfl
    | succ k => simpa [listModify] using ih k

theorem listModify_get_ne (f : ℤ → ℤ) : ∀ (l : List ℤ) (k j : Nat), k ≠ j →
    (listModify f k l).get? j = l.get? j := by
  intro l
  induction l with
  | nil => intro k j _; cases k <;> rfl
  | cons x xs ih =>
    intro k j hne
    cases k with
    | zero =>
      cases j with
      | zero => exact absurd rfl hne
      | succ j => rfl
    | succ k =>
      cases j with
      | zero => rfl
      | succ j =>
        have : k ≠ j := by omega
        simpa [listModify] using ih k j this

theorem getPix_isSome (a : NdArray) (hwf : a.wf) (q : List Int)
    (hq : inDomain a.shape q = true) : ∃ v, a.getPix q = some v := by
  unfold NdArray.getPix
  rw [if_pos hq]
  have hlt : ravel a.shape (toIdx q) < a.values.length := by
    rw [hwf]
    exact ravel_toIdx_lt a.shape q hq
  cases hv : a.values.get? (ravel a.shape (toIdx q)) with
  | none =>
    rw [List.get?_eq_none] at hv
    omega
  | some v => exact ⟨v, rfl⟩

theorem fillOne_wf (a : NdArray) (ix : List Int) (w : ℤ) (h : a.wf) :
    (fillOne a ix w).wf := by
  unfold NdArray.wf at *
  rw [fillOne_vlen, fillOne_shape, h]

theorem setOne_wf (a : NdArray) (ix : List Int) (v : ℤ) (h : a.wf) :
    (setOne a ix v).wf := by
  unfold NdArray.wf at *
  rw [setOne_vlen, setOne_shape, h]

theorem getPix_fillOne_same (a : NdArray) (ix : List Int) (w : ℤ)
    (hix : inDomain a.shape ix = true) :
    (fillOne a ix w).getPix ix = (a.getPix ix).map (· + w) := by
  unfold fillOne NdArray.getPix
  rw [if_pos hix]
  simp only [if_pos hix]
  exact listModify_get_eq _ _ _

theorem getPix_fillOne_other (a : NdArray) (ix q : List Int) (w : ℤ)
    (hq : inDomain a.shape q = true) (hne : ix ≠ q) :
    (fillOne a ix w).getPix q = a.getPix q := by
  unfold fillOne
  by_cases hix : inDomain a.shape ix = true
  · rw [if_pos hix]
    unfold NdArray.getPix
    simp only [if_pos hq]
    have hk : ravel a.shape (toIdx ix) ≠ ravel a.shape (toIdx q) := by
      intro hcon
      exact hne (ravel_toIdx_inj a.shape ix q hix hq hcon)
    exact listModify_get_ne _ _ _ _ hk
  · rw [if_neg hix]

theorem getPix_setOne_same (a : NdArray) (ix : List Int) (v : ℤ)
    (hix : inDomain a.shape ix = true) :
    (setOne a ix v).getPix ix = (a.getPix ix).map (fun _ => v) := by
  unfold setOne NdArray.getPix
  rw [if_pos hix]
  simp only [if_pos hix]
  exact listModify_get_eq _ _ _

theorem getPix_setOne_other (a : NdArray) (ix q : List Int) (v : ℤ)
    (hq : inDomain a.shape q = true) (hne : ix ≠ q) :
    (setOne a ix v).getPix q = a.getPix q := by
  unfold setOne
  by_cases hix : inDomain a.shape ix = true
  · rw [if_pos hix]
    unfold NdArray.getPix
    simp only [if_pos hq]
    have hk : ravel a.shape (toIdx ix) ≠ ravel a.shape (toIdx q) := by
      intro hcon
      exact hne (ravel_toIdx_inj a.shape ix q hix hq hcon)
    exact listModify_get_ne _ _ _ _ hk
  · rw [if_neg hix]

theorem pixVal_fillOne_same (a : NdArray) (hwf : a.wf) (ix : List Int) (w : ℤ)
    (hix : inDomain a.shape ix = true) :
    pixVal (fillOne a ix w) ix = pixVal a ix + w := by
  obtain ⟨v, hv⟩ := getPix_isSome a hwf ix hix
  unfold pixVal
  rw [getPix_fillOne_same a ix w hix, hv]
  rfl

theorem pixVal_setOne_same (a : NdArray) (hwf : a.wf) (ix : List Int) (v : ℤ)
    (hix : inDomain a.shape ix = true) :
    pixVal (setOne a ix v) ix = v := by
  obtain ⟨v0, hv0⟩ := getPix_isSome a hwf ix hix
  unfold pixVal
  rw [getPix_setOne_same a ix v hix, hv0]
  rfl

theorem pixVal_fillOne_other (a : NdArray) (ix q : List Int) (w : ℤ)
    (hq : inDomain a.shape q = true) (hne : ix ≠ q) :
    pixVal (fillOne a ix w) q = pixVal a q := by
  unfold pixVal
  rw [getPix_fillOne_other a ix q w hq hne]

theorem pixVal_setOne_other (a : NdArray) (ix q : List Int) (v : ℤ)
    (hq : inDomain a.shape q = true) (hne : ix ≠ q) :
    pixVal (setOne a ix v) q = pixVal a q := by
  unfold pixVal
  rw [getPix_setOne_other a ix q v hq hne]

theorem fillList_cons (a : NdArray) (p : Option (List Int) × ℤ)
    (t : List (Option (List Int) × ℤ)) :
    fillList a (p :: t)
      = fillList (match p.1 with | none => a | some ix => fillOne a ix p.2) t := rfl

theorem setList_cons (a : NdArray) (p : Option (List Int) × ℤ)
    (t : List (Option (List Int) × ℤ)) :
    setList a (p :: t)
      = setList (match p.1 with | none => a | some ix => setOne a ix p.2) t := rfl

/-- Accumulation: the value at an in-domain pixel after a sequence of fill
entries is the prior value plus the sum of all weights addressed to that
pixel (out-of-domain and unresolved addresses contribute nothing). -/
theorem pixVal_fillList : ∀ (l : List (Option (List Int) × ℤ)) (a : NdArray),
    a.wf → ∀ (q : List Int), inDomain a.shape q = true →
    pixVal (fillList a l) q
      = pixVal a q + ((l.filter (fun pw => pw.1 == some q)).map Prod.snd).sum := by
  intro l
  induction l with
  | nil =>
    intro a hwf q hq
    simp [fillList]
  | cons p t ih =>
    intro a hwf q hq
    rw [fillList_cons]
    cases hp : p.1 with
    | none =>
      dsimp only
      rw [ih a hwf q hq]
      simp [List.filter_cons, hp]
    | some ix =>
      dsimp only
      by_cases hiq : ix = q
      · subst hiq
        have hwf' : (fillOne a ix p.2).wf := fillOne_wf a ix p.2 hwf
        have hq' : inDomain (fillOne a ix p.2).shape ix = true := by
          rw [fillOne_shape]; exact hq
        rw [ih (fillOne a ix p.2) hwf' ix hq']
        rw [pixVal_fillOne_same a hwf ix p.2 hq]
        have hfil : (p :: t).filter (fun pw => pw.1 == some ix)
            = p :: t.filter (fun pw => pw.1 == some ix) := by
          rw [List.filter_cons, hp]
          simp
        rw [hfil]
        simp only [List.map_cons, List.sum_cons, hp]
        ring
      · have hq' : inDomain (fillOne a ix p.2).shape q = true := by
          rw [fillOne_shape]; exact hq
        have hwf' : (fillOne a ix p.2).wf := fillOne_wf a ix p.2 hwf
        rw [ih (fillOne a ix p.2) hwf' q hq']
        rw [pixVal_fillOne_other a ix q p.2 hq hiq]
        have hfil : (p :: t).filter (fun pw => pw.1 == some q)
            = t.filter (fun pw => pw.1 == some q) := by
          rw [List.filter_cons, hp]
          simp [hiq]
        rw [hfil]

/-- Overwriting: the value at an in-domain pixel after a sequence of set
entries is the last value addressed to that pixel, or the prior value if
none addressed it. -/
theorem pixVal_setList : ∀ (l : List (Option (List Int) × ℤ)) (a : NdArray),
    a.wf → ∀ (q : List Int), inDomain a.shape q = true →
    pixVal (setList a l) q
      = ((l.filter (fun pv => pv.1 == some q)).map Prod.snd).getLastD (pixVal a q) := by
  intro l
  induction l with
  | nil =>
    intro a hwf q hq
    simp [setList, List.getLastD]
  | cons p t ih =>
    intro a hwf q hq
    rw [setList_cons]
    cases hp : p.1 with
    | none =>
      dsimp only
      rw [ih a hwf q hq]
      simp [List.filter_cons, hp]
    | some ix =>
      dsimp only
      by_cases hiq : ix = q
      · subst hiq
        have hwf' : (setOne a ix p.2).wf := setOne_wf a ix p.2 hwf
        have hq' : inDomain (setOne a ix p.2).shape ix = true := by
          rw [setOne_shape]; exact hq
        rw [ih (setOne a ix p.2) hwf' ix hq']
        rw [pixVal_setOne_same a hwf ix p.2 hq]
        have hfil : (p :: t).filter (fun pv => pv.1 == some ix)
            = p :: t.filter (fun pv => pv.1 == some ix) := by
          rw [List.filter_cons, hp]
          simp
        rw [hfil]
        simp only [List.map_cons]
        rw [List.getLastD_cons]
      · have hq' : inDomain (setOne a ix p.2).shape q = true := by
          rw [setOne_shape]; exact hq
        have hwf' : (setOne a ix p.2).wf := setOne_wf a ix p.2 hwf
        rw [ih (setOne a ix p.2) hwf' q hq']
        rw [pixVal_setOne_other a ix q p.2 hq hiq]
        have hfil : (p :: t).filter (fun pv => pv.1 == some q)
            = t.filter (fun pv => pv.1 == some q) := by
          rw [List.filter_cons, hp]
          simp [hiq]
        rw [hfil]

/-! ### Single-call characterizations of the four write operations -/

theorem pixVal_fill_by_pix (m : MapState) (hwf : m.data.wf) (q : List Int)
    (hq : inDomain m.data.shape q = true) (pix : List (List Int)) (ws : List ℤ) :
    pixVal (fill_by_pix m pix (some ws)).data q
      = pixVal m.data q
        + (((pix.zip ws).filter (fun pw => pw.1 == q)).map Prod.snd).sum := by
  show pixVal (fillList m.data ((pix.zip ws).map (fun pw => (some pw.1, pw.2)))) q = _
  rw [pixVal_fillList _ m.data hwf q hq]
  rw [List.filter_map, List.map_map]
  have hpred : ((fun pw : Option (List Int) × ℤ => pw.1 == some q)
      ∘ (fun pw : List Int × ℤ => ((some pw.1 : Option (List Int)), pw.2)))
      = (fun pw : List Int × ℤ => pw.1 == q) := funext (fun _ => rfl)
  have hmap : (Prod.snd ∘ (fun pw : List Int × ℤ => ((some pw.1 : Option (List Int)), pw.2)))
      = (Prod.snd : List Int × ℤ → ℤ) := funext (fun _ => rfl)
  rw [hpred, hmap]

theorem pixVal_set_by_pix (m : MapState) (hwf : m.data.wf) (q : List Int)
    (hq : inDomain m.data.shape q = true) (pix : List (List Int)) (vals : List ℤ) :
    pixVal (set_by_pix m pix vals).data q
      = (((pix.zip vals).filter (fun pv => pv.1 == q)).map Prod.snd).getLastD
          (pixVal m.data q) := by
  show pixVal (setList m.data ((pix.zip vals).map (fun pv => (some pv.1, pv.2)))) q = _
  rw [pixVal_setList _ m.data hwf q hq]
  rw [List.filter_map, List.map_map]
  have hpred : ((fun pv : Option (List Int) × ℤ => pv.1 == some q)
      ∘ (fun pv : List Int × ℤ => ((some pv.1 : Option (List Int)), pv.2)))
      = (fun pv : List Int × ℤ => pv.1 == q) := funext (fun _ => rfl)
  have hmap : (Prod.snd ∘ (fun pv : List Int × ℤ => ((some pv.1 : Option (List Int)), pv.2)))
      = (Prod.snd : List Int × ℤ → ℤ) := funext (fun _ => rfl)
  rw [hpred, hmap]

theorem pixVal_fill_by_coords (m : MapState) (hwf : m.data.wf) (q : List Int)
    (hq : inDomain m.data.shape q = true) (coords : List (List ℚ)) (ws : List ℤ) :
    pixVal (fill_by_coords m coords (some ws)).data q
      = pixVal m.data q
        + (((coords.zip ws).filter
            (fun cw => m.geom.coordToPix cw.1 == some q)).map Prod.snd).sum := by
  show pixVal (fillList m.data
    ((coords.zip ws).map (fun cw => (m.geom.coordToPix cw.1, cw.2)))) q = _
  rw [pixVal_fillList _ m.data hwf q hq]
  rw [List.filter_map, List.map_map]
  have hpred : ((fun pw : Option (List Int) × ℤ => pw.1 == some q)
      ∘ (fun cw : List ℚ × ℤ => (m.geom.coordToPix cw.1, cw.2)))
      = (fun cw : List ℚ × ℤ => m.geom.coordToPix cw.1 == some q) :=
    funext (fun _ => rfl)
  have hmap : (Prod.snd ∘ (fun cw : List ℚ × ℤ => (m.geom.coordToPix cw.1, cw.2)))
      = (Prod.snd : List ℚ × ℤ → ℤ) := funext (fun _ => rfl)
  rw [hpred, hmap]

theorem pixVal_set_by_coords (m : MapState) (hwf : m.data.wf) (q : List Int)
    (hq : inDomain m.data.shape q = true) (coords : List (List ℚ)) (vals : List ℤ) :
    pixVal (set_by_coords m coords vals).data q
      = (((coords.zip vals).filter
          (fun cv => m.geom.coordToPix cv.1 == some q)).map Prod.snd).getLastD
          (pixVal m.data q) := by
  show pixVal (setList m.data
    ((coords.zip vals).map (fun cv => (m.geom.coordToPix cv.1, cv.2)))) q = _
  rw [pixVal_setList _ m.data hwf q hq]
  rw [List.filter_map, List.map_map]
  have hpred : ((fun pv : Option (List Int) × ℤ => pv.1 == some q)
      ∘ (fun cv : List ℚ × ℤ => (m.geom.coordToPix cv.1, cv.2)))
      = (fun cv : List ℚ × ℤ => m.geom.coordToPix cv.1 == some q) :=
    funext (fun _ => rfl)
  have hmap : (Prod.snd ∘ (fun cv : List ℚ × ℤ => (m.geom.coordToPix cv.1, cv.2)))
      = (Prod.snd : List ℚ × ℤ → ℤ) := funext (fun _ => rfl)
  rw [hpred, hmap]

theorem fill_by_pix_wf (m : MapState) (hwf : m.data.wf) (pix : List (List Int))
    (w : Option (List ℤ)) : (fill_by_pix m pix w).data.wf :=
  fillList_wf _ _ hwf

theorem fill_by_pix_shape (m : MapState) (pix : List (List Int))
    (w : Option (List ℤ)) : (fill_by_pix m pix w).data.shape = m.data.shape :=
  fillList_shape _ _

/-! ### Claim C2 -/

/-- Claim C2: `fill_by_pix` / `fill_by_coords` add their weights into the
addressed pixels — the value at any in-domain pixel `q` after one call is
the prior value plus the sum of every weight whose (resolved) address is
`q`, so duplicate addresses within a call all accumulate and two
successive unit-weight fills at the same pixel add 2; omitted weights
default to unit weights.  `set_by_pix` / `set_by_coords` instead
overwrite: the value at `q` afterwards is the last value addressed to `q`
in the call, or the prior value when none was. -/
theorem fill_accumulates_set_overwrites
    (m : MapState) (hwf : m.data.wf) (q : List Int)
    (hq : inDomain m.data.shape q = true)
    (pix : List (List Int)) (ws : List ℤ)
    (pix2 : List (List Int)) (vals : List ℤ)
    (coords : List (List ℚ)) (cws : List ℤ)
    (coords2 : List (List ℚ)) (cvals : List ℤ) :
    pixVal (fill_by_pix m pix (some ws)).data q
        = pixVal m.data q
          + (((pix.zip ws).filter (fun pw => pw.1 == q)).map Prod.snd).sum
      ∧ fill_by_pix m pix none
        = fill_by_pix m pix (some (List.replicate pix.length 1))
      ∧ pixVal (fill_by_pix (fill_by_pix m pix (some ws)) pix (some ws)).data q
        = pixVal m.data q
          + (((pix.zip ws).filter (fun pw => pw.1 == q)).map Prod.snd).sum
          + (((pix.zip ws).filter (fun pw => pw.1 == q)).map Prod.snd).sum
      ∧ pixVal (set_by_pix m pix2 vals).data q
        = (((pix2.zip vals).filter (fun pv => pv.1 == q)).map Prod.snd).getLastD
            (pixVal m.data q)
      ∧ pixVal (fill_by_coords m coords (some cws)).data q
        = pixVal m.data q
          + (((coords.zip cws).filter
              (fun cw => m.geom.coordToPix cw.1 == some q)).map Prod.snd).sum
      ∧ pixVal (set_by_coords m coords2 cvals).data q
        = (((coords2.zip cvals).filter
            (fun cv => m.geom.coordToPix cv.1 == some q)).map Prod.snd).getLastD
            (pixVal m.data q) := by
  refine ⟨pixVal_fill_by_pix m hwf q hq pix ws, rfl, ?_,
    pixVal_set_by_pix m hwf q hq pix2 vals,
    pixVal_fill_by_coords m hwf q hq coords cws,
    pixVal_set_by_coords m hwf q hq coords2 cvals⟩
  have hwf' : (fill_by_pix m pix (some ws)).data.wf := fill_by_pix_wf m hwf pix _
  have hq' : inDomain (fill_by_pix m pix (some ws)).data.shape q = true := by
    rw [fill_by_pix_shape]; exact hq
  rw [pixVal_fill_by_pix (fill_by_pix m pix (some ws)) hwf' q hq' pix ws]
  rw [pixVal_fill_by_pix m hwf q hq pix ws]

/-- A concrete zero-initialized 2×2 map. -/
def zeroMap : MapState :=
  MapBase.init { shape := [2, 2], coordToPix := fun _ => none }
    { shape := [2, 2], values := [0, 0, 0, 0] }

/-- Witness for C2: on the zeroed 2×2 map, two unit-weight fills at pixel
(0,1) leave 2 there, and one `set_by_pix` call writing 5 then 7 to that
pixel leaves 7. -/
theorem fill_accumulates_set_overwrites_witness :
    zeroMap.data.wf
      ∧ inDomain zeroMap.data.shape [0, 1] = true
      ∧ pixVal (fill_by_pix (fill_by_pix zeroMap [[0, 1]] none) [[0, 1]] none).data [0, 1] = 2
      ∧ pixVal (set_by_pix zeroMap [[0, 1], [0, 1]] [5, 7]).data [0, 1] = 7 := by
  have h := fill_accumulates_set_overwrites zeroMap (by decide) [0, 1] (by decide)
    [[0, 1]] [1] [[0, 1], [0, 1]] [5, 7] [] [] [] []
  refine ⟨by decide, by decide, ?_, ?_⟩
  · show pixVal
      (fill_by_pix (fill_by_pix zeroMap [[0, 1]] (some [1])) [[0, 1]] (some [1])).data
      [0, 1] = 2
    rw [h.2.2.1]
    decide
  · rw [h.2.2.2.1]
    decide

/-! ### Claim C3: out-of-domain reads -/

/-- Claim C3: `get_by_pix` at any index outside the geometry's extent and
`get_by_coords` at any coordinate outside the geometry's domain yield the
not-a-number sentinel (`none`) for that element; the operations are total
(one output per input element), never an error. -/
theorem out_of_domain_read_sentinel (m : MapState)
    (pix : List (List Int)) (j : Nat) (ix : List Int)
    (hj : pix.get? j = some ix) (hout : inDomain m.data.shape ix = false)
    (coords : List (List ℚ)) (k : Nat) (c : List ℚ)
    (hk : coords.get? k = some c) (hc : m.geom.coordToPix c = none) :
    (get_by_pix m pix).get? j = some none
      ∧ (get_by_pix m pix).length = pix.length
      ∧ (get_by_coords m coords).get? k = some none
      ∧ (get_by_coords m coords).length = coords.length := by
  refine ⟨?_, List.length_map _ _, ?_, List.length_map _ _⟩
  · unfold get_by_pix
    rw [List.get?_map, hj]
    show some (m.data.getPix ix) = some none
    unfold NdArray.getPix
    rw [hout]
    rfl
  · unfold get_by_coords
    rw [List.get?_map, hk]
    show some (match m.geom.coordToPix c with
      | none => none
      | some ix => m.data.getPix ix) = some none
    rw [hc]

/-- Witness for C3: index (5,5) is outside the 2×2 array, and the sample
geometry resolves no coordinate. -/
theorem out_of_domain_read_sentinel_witness :
    ([[5, 5]] : List (List Int)).get? 0 = some [5, 5]
      ∧ inDomain sampleMap.data.shape [5, 5] = false
      ∧ ([[0]] : List (List ℚ)).get? 0 = some [0]
      ∧ sampleMap.geom.coordToPix [0] = none
      ∧ ((get_by_pix sampleMap [[5, 5]]).get? 0 = some none
        ∧ (get_by_pix sampleMap [[5, 5]]).length = 1
        ∧ (get_by_coords sampleMap [[0]]).get? 0 = some none
        ∧ (get_by_coords sampleMap [[0]]).length = 1) :=
  ⟨rfl, by decide, rfl, rfl,
    out_of_domain_read_sentinel sampleMap [[5, 5]] 0 [5, 5] rfl (by decide)
      [[0]] 0 [0] rfl rfl⟩

/-! ### Claim C5: sum_over_axes -/

theorem sum_blockSums : ∀ (sp b : Nat) (l : List ℤ), l.length = sp * b →
    (blockSums sp b l).sum = l.sum := by
  intro sp
  induction sp with
  | zero =>
    intro b l hlen
    have : l = [] := by
      cases l with
      | nil => rfl
      | cons x xs => simp at hlen
    subst this
    rfl
  | succ sp ih =>
    intro b l hlen
    unfold blockSums
    rw [List.range_succ_eq_map]
    rw [List.map_cons, List.sum_cons, List.map_map]
    simp only [Nat.zero_mul, List.drop_zero]
    have hfun : ((fun s => ((l.drop (s * b)).take b).sum) ∘ Nat.succ)
        = (fun s => (((l.drop b).drop (s * b)).take b).sum) := by
      funext s
      show ((l.drop ((s + 1) * b)).take b).sum = (((l.drop b).drop (s * b)).take b).sum
      rw [List.drop_drop]
      have : (s + 1) * b = s * b + b := Nat.succ_mul s b
      rw [this, Nat.add_comm (s * b) b]
    rw [hfun]
    have hlen' : (l.drop b).length = sp * b := by
      rw [List.length_drop, hlen, Nat.succ_mul]
      omega
    have := ih b (l.drop b) hlen'
    unfold blockSums at this
    rw [this]
    show (l.take b).sum + (l.drop b).sum = l.sum
    rw [← List.sum_append, List.take_append_drop]

/-- Claim C5: `sum_over_axes()` returns a new map over the same spatial
geometry whose data has the 2-dimensional spatial shape (all non-spatial
axes collapsed by summation), is well-formed, and whose total sum of
values equals the total of the original — nothing dropped or double
counted.  In this pure model the returned map is by construction a fresh
value, not an alias of the original's data. -/
theorem sum_over_axes_conserves (m : MapState) (hwf : m.data.wf)
    (h2 : 2 ≤ m.data.shape.length) :
    (sum_over_axes m).geom = spatialGeom m.geom
      ∧ (sum_over_axes m).data.shape = m.data.shape.take 2
      ∧ (sum_over_axes m).data.shape.length = 2
      ∧ (sum_over_axes m).data.wf
      ∧ (sum_over_axes m).data.values.sum = m.data.values.sum := by
  refine ⟨rfl, rfl, ?_, ?_, ?_⟩
  · show (m.data.shape.take 2).length = 2
    rw [List.length_take]
    omega
  · show (sumOverAxesData m.data).wf
    unfold NdArray.wf sumOverAxesData blockSums
    simp
  · show (sumOverAxesData m.data).values.sum = m.data.values.sum
    unfold sumOverAxesData
    apply sum_blockSums
    rw [hwf]
    conv_lhs => rw [← List.take_append_drop 2 m.data.shape]
    rw [List.prod_append]

/-- A concrete 2×2×2 map (two spatial dimensions, one non-spatial axis of
two bins) with values 1..8. -/
def cubeMap : MapState :=
  MapBase.init { shape := [2, 2, 2], coordToPix := fun _ => none }
    { shape := [2, 2, 2], values := [1, 2, 3, 4, 5, 6, 7, 8] }

/-- Witness for C5 on the concrete 2×2×2 map. -/
theorem sum_over_axes_conserves_witness :
    cubeMap.data.wf
      ∧ 2 ≤ cubeMap.data.shape.length
      ∧ ((sum_over_axes cubeMap).geom = spatialGeom cubeMap.geom
        ∧ (sum_over_axes cubeMap).data.shape = cubeMap.data.shape.take 2
        ∧ (sum_over_axes cubeMap).data.shape.length = 2
        ∧ (sum_over_axes cubeMap).data.wf
        ∧ (sum_over_axes cubeMap).data.values.sum = cubeMap.data.values.sum) :=
  ⟨by decide, by decide, sum_over_axes_conserves cubeMap (by decide) (by decide)⟩

end GammapyMaps
